import Mathlib

/-!
# Verification of the codex32 reference implementation core

Shallow embedding of the rust-codex32 library: GF(32) field arithmetic
(src/field.rs), the streaming checksum engine (src/checksum.rs) and the
string facade (src/lib.rs). Field elements are modelled as natural
numbers (the underlying byte of the Rust newtype `Fe(u8)`); a Rust panic
is modelled as `Option.none` / absence of a result; fallible operations
return `Except Err`.
-/

set_option maxRecDepth 20000

namespace Codex32

/-- Logarithm table of each bech32 element, as a power of alpha = Z
(const LOG in src/field.rs). The entry for 0 is a placeholder. -/
def LOG : List Nat :=
  [ 0,  0,  1, 14,  2, 28, 15, 22,
    3,  5, 29, 26, 16,  7, 23, 11,
    4, 25,  6, 10, 30, 13, 27, 21,
   17, 18,  8, 19, 24,  9, 12, 20]

/-- Mapping of powers of 2 to the numeric value of the element
(const LOG_INV in src/field.rs). -/
def LOG_INV : List Nat :=
  [ 1,  2,  4,  8, 16,  9, 18, 13,
   26, 29, 19, 15, 30, 21,  3,  6,
   12, 24, 25, 27, 31, 23,  7, 14,
   28, 17, 11, 22,  5, 10, 20]

/-- Mapping from numeric value to bech32 character
(const CHARS_LOWER in src/field.rs). -/
def CHARS_LOWER : List Char :=
  [ 'q', 'p', 'z', 'r', 'y', '9', 'x', '8',
    'g', 'f', '2', 't', 'v', 'd', 'w', '0',
    's', '3', 'j', 'n', '5', '4', 'k', 'h',
    'c', 'e', '6', 'm', 'u', 'a', '7', 'l']

/-- Mapping from bech32 character (either case) to numeric value
(const CHARS_INV in src/field.rs); -1 is the invalid sentinel. -/
def CHARS_INV : List Int :=
  [-1, -1, -1, -1, -1, -1, -1, -1, -1, -1, -1, -1, -1, -1, -1, -1,
   -1, -1, -1, -1, -1, -1, -1, -1, -1, -1, -1, -1, -1, -1, -1, -1,
   -1, -1, -1, -1, -1, -1, -1, -1, -1, -1, -1, -1, -1, -1, -1, -1,
   15, -1, 10, 17, 21, 20, 26, 30,  7,  5, -1, -1, -1, -1, -1, -1,
   -1, 29, -1, 24, 13, 25,  9,  8, 23, -1, 18, 22, 31, 27, 19, -1,
    1,  0,  3, 16, 11, 28, 12, 14,  6,  4,  2, -1, -1, -1, -1, -1,
   -1, 29, -1, 24, 13, 25,  9,  8, 23, -1, 18, 22, 31, 27, 19, -1,
    1,  0,  3, 16, 11, 28, 12, 14,  6,  4,  2, -1, -1, -1, -1, -1]

/-- Lowercase or uppercase, enum Case in src/lib.rs. -/
inductive Case | Lower | Upper
deriving DecidableEq, Repr

/-- Error taxonomy: the variants of enum Error in src/lib.rs, with the
variants of the field-level enum Error in src/field.rs (wrapped upstream
as Error::Field) inlined with a Field prefix. -/
inductive Err
  | InvalidLength (n : Nat)
  | InvalidChar (c : Char)
  | InvalidCase (cs : Case) (c : Char)
  | InvalidChecksum (checksum : List Char) (s : List Char)
  | FieldEmptyString
  | FieldExtraChar (c : Char)
  | FieldInvalidChar (c : Char)
  | FieldInvalidCase (cs : Case) (c : Char)
  | FieldNotAByte
  | FieldInvalidByte (b : Nat)
deriving DecidableEq, Repr

instance {ε α : Type} [DecidableEq ε] [DecidableEq α] : DecidableEq (Except ε α) := fun x y =>
  match x, y with
  | .error e, .error f =>
    if h : e = f then .isTrue (by rw [h]) else .isFalse fun hh => h (Except.error.inj hh)
  | .error _, .ok _ => .isFalse fun hh => Except.noConfusion hh
  | .ok _, .error _ => .isFalse fun hh => Except.noConfusion hh
  | .ok a, .ok b =>
    if h : a = b then .isTrue (by rw [h]) else .isFalse fun hh => h (Except.ok.inj hh)

/-- Addition in GF(32): bitwise xor (impl ops::Add for Fe). -/
def feAdd (a b : Nat) : Nat := a ^^^ b

/-- Subtraction in GF(32) is the same as addition (impl ops::Sub for Fe). -/
def feSub (a b : Nat) : Nat := feAdd a b

/-- Multiplication in GF(32) via log tables (impl ops::Mul for Fe). -/
def feMul (a b : Nat) : Nat :=
  if a = 0 || b = 0 then 0
  else LOG_INV.getD ((LOG.getD a 0 + LOG.getD b 0) % 31) 0

/-- Division in GF(32) (impl ops::Div for Fe). The Rust code panics when
the dividend is non-zero and the divisor is zero; the panic is modelled
as `none`. The zero-dividend check comes first, exactly as in the source. -/
def feDiv (a b : Nat) : Option Nat :=
  if a = 0 then some 0
  else if b = 0 then none
  else some (LOG_INV.getD (((31 + (LOG.getD a 0 : Int) - (LOG.getD b 0 : Int)) % 31).toNat) 0)

/-- Fe::from_int. The source takes any integer convertible to u8; the
argument here is the non-negative integer case that the library feeds it
(u32 values); values above 255 fail the u8 conversion (NotAByte), values
in [32, 256) are InvalidByte. -/
def from_int (i : Nat) : Except Err Nat :=
  if 255 < i then .error .FieldNotAByte
  else if i < 32 then .ok i
  else .error (.FieldInvalidByte i)

/-- Fe::from_char: reject characters above 127 (the i8 conversion fails),
then look up the inverse character table, rejecting the -1 sentinel. -/
def from_char (c : Char) : Except Err Nat :=
  if 127 < c.toNat then .error (.FieldInvalidChar c)
  else if CHARS_INV.getD c.toNat (-1) < 0 then .error (.FieldInvalidChar c)
  else .ok (CHARS_INV.getD c.toNat (-1)).toNat

/-- Fe::from_char_case: decode first, then check the case. -/
def from_char_case (c : Char) (cs : Case) : Except Err Nat := do
  let res ← from_char c
  match (decide (97 ≤ c.toNat ∧ c.toNat ≤ 122), cs) with
  | (true, Case.Lower) => .ok res
  | (false, Case.Upper) => .ok res
  | _ => .error (.FieldInvalidCase cs c)

/-- Fe::to_char: index the lowercase character table. The source indexes
the array directly relying on the invariant that the value is below 32;
out-of-range values (never produced, see the invariant theorem) fall back
to a default here. -/
def to_char (n : Nat) : Char := CHARS_LOWER.getD n 'q'

/-- str::FromStr for Fe: exactly one character, decoded with from_char. -/
def fe_from_str (s : List Char) : Except Err Nat :=
  match s with
  | [] => .error .FieldEmptyString
  | [c] => from_char c
  | _ :: c :: _ => .error (.FieldExtraChar c)

/-- Checksum engine state (struct Engine in src/checksum.rs). The Rust
field named case (the observed case) is called caseOpt here because case
is reserved in Lean. -/
structure Engine where
  caseOpt : Option Case
  generator : List Nat
  residue : List Nat
  target : List Nat
deriving DecidableEq, Repr

/-- Engine::new_codex32_short. The Fe associated constants used by the
source (Fe::S and so on) are not among the provided sources; their
values are the positions of the corresponding characters in the bech32
alphabet, as the spec defines the numeric value of a character. -/
def new_codex32_short : Engine :=
  { caseOpt := none
    -- S S C M L E E E Q G 3 M
    generator := [16, 16, 24, 27, 31, 25, 25, 25, 0, 8, 17, 27]
    residue := [0, 0, 0, 0, 0, 0, 0, 0, 0, 0, 0, 0, 1]
    -- S E C R E T S H A R E 3 2
    target := [16, 25, 24, 3, 25, 11, 16, 23, 29, 3, 25, 17, 10] }

/-- Engine::new_codex32_long. -/
def new_codex32_long : Engine :=
  { caseOpt := none
    -- H Y K 9 X 4 H X 4 E F 6 2 0
    generator := [23, 4, 22, 5, 6, 21, 23, 6, 21, 25, 9, 26, 10, 15]
    residue := [0, 0, 0, 0, 0, 0, 0, 0, 0, 0, 0, 0, 0, 0, 1]
    -- S E C R E T S H A R E 3 2 E X
    target := [16, 25, 24, 3, 25, 11, 16, 23, 29, 3, 25, 17, 10, 25, 6] }

/-- Engine::into_residue. -/
def into_residue (eng : Engine) : List Nat := eng.residue

/-- Engine::is_valid: the residue equals the target. -/
def is_valid (eng : Engine) : Bool := eng.residue = eng.target

/-- Shift loop of Engine::input_fe, exactly as the source executes it:
for i in 0..res_len-1, residue of index i+1 is assigned the CURRENT
value at index i (each iteration reads the state left by the previous
one, in ascending index order). -/
def shiftLoop (r : List Nat) : List Nat :=
  (List.range (r.length - 1)).foldl (fun acc i => acc.set (i + 1) (acc.getD i 0)) r

/-- Reduction loop of Engine::input_fe: for each generator coefficient
g at index i, residue at index i gets g times xn xor-added into it. -/
def reduceLoop (g : List Nat) (xn : Nat) (r : List Nat) : List Nat :=
  (List.range g.length).foldl (fun acc i => acc.set i (feAdd (acc.getD i 0) (feMul (g.getD i 0) xn))) r

/-- Engine::input_fe, the per-character update as the source performs
it: capture the last residue element, run the in-place ascending shift
loop, set index 0 to the input, then run the reduction loop. -/
def input_fe (eng : Engine) (e : Nat) : Engine :=
  let resLen := eng.residue.length
  let xn := eng.residue.getD (resLen - 1) 0
  let r1 := shiftLoop eng.residue
  let r2 := r1.set 0 e
  { eng with residue := reduceLoop eng.generator xn r2 }

/-- Engine::set_check_case: reject non-ASCII characters, then fix or
check the observed case from is_ascii_lowercase of the character. -/
def set_check_case (eng : Engine) (c : Char) : Except Err Engine :=
  if 127 < c.toNat then .error (.InvalidChar c)
  else
    match eng.caseOpt, (97 ≤ c.toNat && c.toNat ≤ 122 : Bool) with
    | some Case.Lower, true => .ok eng
    | some Case.Upper, false => .ok eng
    | some Case.Lower, false => .error (.InvalidCase Case.Lower c)
    | some Case.Upper, true => .error (.InvalidCase Case.Upper c)
    | none, true => .ok { eng with caseOpt := some Case.Lower }
    | none, false => .ok { eng with caseOpt := some Case.Upper }

/-- Engine::input_hrp: for each HRP character, check the case and feed
its high bits, a zero, and its low five bits. -/
def input_hrp (eng : Engine) : List Char → Except Err Engine
  | [] => .ok eng
  | ch :: rest => do
      let e1 ← set_check_case eng ch
      let f1 ← from_int (ch.toNat >>> 5)
      let e2 := input_fe e1 f1
      let e3 := input_fe e2 0
      let f2 ← from_int (ch.toNat &&& 0x1f)
      input_hrp (input_fe e3 f2) rest

/-- Engine::input_char: check the case, decode, feed. -/
def input_char (eng : Engine) (c : Char) : Except Err Engine := do
  let e1 ← set_check_case eng c
  let fe ← from_char c
  .ok (input_fe e1 fe)

/-- Engine::input_data_str: feed every character as a data character. -/
def input_data_str (eng : Engine) : List Char → Except Err Engine
  | [] => .ok eng
  | ch :: rest => do
      let e1 ← input_char eng ch
      input_data_str e1 rest

/-- String::rsplit_once on a single separator character: split around
the last occurrence, or none when the character does not occur. -/
def rsplitOnce (s : List Char) (c : Char) : Option (List Char × List Char) :=
  match (s.reverse.findIdx? (fun x => x = c)) with
  | none => none
  | some k => some (s.take (s.length - 1 - k), s.drop (s.length - k))

/-- Byte length of a string, as Rust str::len counts it (UTF-8 bytes). -/
def rustLen (s : List Char) : Nat := (s.map Char.utf8Size).sum

/-- Engine-selection step at the top of Codex32String::from_string:
short for total byte length strictly between 0 and 94, long for length
strictly between 95 and 125, otherwise InvalidLength. -/
def engine_select (n : Nat) : Except Err (List Char × Engine) :=
  if 0 < n ∧ n < 94 then .ok ("short".toList, new_codex32_short)
  else if 95 < n ∧ n < 125 then .ok ("long".toList, new_codex32_long)
  else .error (.InvalidLength n)

/-- HRP split step shared by both constructors: everything before the
rightmost separator 1 is the HRP; with no separator the HRP is empty. -/
def hrpSplit (s : List Char) : List Char × List Char :=
  match rsplitOnce s '1' with
  | some p => p
  | none => ([], s)

/-- Codex32String::from_string: dispatch on length, split the HRP, feed
HRP then data, and require the residue to equal the target. The Rust
question-mark operator is rendered as explicit error propagation. -/
def from_string (s : List Char) : Except Err (List Char) := do
  let p ← engine_select (rustLen s)
  let eng1 ← input_hrp p.2 (hrpSplit s).1
  let eng2 ← input_data_str eng1 (hrpSplit s).2
  if is_valid eng2 then .ok s
  else .error (.InvalidChecksum p.1 s)

/-- Checksum-variant selection at the top of
Codex32String::from_unchecksummed_string: both branches of the length
test produce the short engine; only the reserved-capacity hint differs. -/
def uncheck_select (n : Nat) : Nat × Engine :=
  if n < 81 then (13, new_codex32_short) else (15, new_codex32_short)

/-- Codex32String::from_unchecksummed_string: pick the engine from the
pre-checksum length, split the HRP, feed HRP then data, and append each
residue element as its lowercase character. -/
def from_unchecksummed_string (s : List Char) : Except Err (List Char) := do
  let eng1 ← input_hrp (uncheck_select (rustLen s)).2 (hrpSplit s).1
  let eng2 ← input_data_str eng1 (hrpSplit s).2
  .ok (s ++ (into_residue eng2).map to_char)

/-- Per-character update following the words of the spec: capture xn as
the old last residue element, shift the residue one position toward
higher indices simultaneously (position i+1 receives the OLD value at
position i, so position 0 frees up), set position 0 to the input, then
run the reduction loop. This is the comparison definition for the
refinement question of whether Engine::input_fe realizes it. -/
def input_fe_simultaneous (eng : Engine) (e : Nat) : Engine :=
  let resLen := eng.residue.length
  let xn := eng.residue.getD (resLen - 1) 0
  let r2 := e :: eng.residue.dropLast
  { eng with residue := reduceLoop eng.generator xn r2 }

/-- Translation-wheel iteration of tests::translation_wheel part 1:
push the character of the accumulator, then multiply by the base. -/
def wheelMul (base : Nat) : Nat → Nat → List Char
  | 0, _ => []
  | k + 1, init => to_char init :: wheelMul base k (feMul init base)

/-- Translation-wheel iteration of tests::translation_wheel part 2:
push the character, then divide by the base (a panic propagates). -/
def wheelDiv (base : Nat) : Nat → Nat → Option (List Char)
  | 0, _ => some []
  | k + 1, init => do
      let next ← feDiv init base
      let rest ← wheelDiv base k next
      pure (to_char init :: rest)

/-- Recovery-wheel iteration of tests::recovery_wheel: push the
character of the accumulator plus S = Fe(16), then multiply by Fe(10). -/
def wheelRecovery : Nat → Nat → List Char
  | 0, _ => []
  | k + 1, init => to_char (feAdd init 16) :: wheelRecovery k (feMul init 10)

/-- C1: the per-character update of Engine::input_fe is claimed to act
as the simultaneous one-position shift (position i+1 receives the old
value of position i for every i) followed by the reduction loop. The
source performs the shift in ascending index order in place, which
propagates position 0 into every later position instead. Feeding two
zero elements into a fresh short engine exposes the difference: the
code leaves residue index 3 equal to 16 where the simultaneous rule
requires the old index-2 value 24. -/
theorem input_fe_differs_from_simultaneous_rule :
    (input_fe (input_fe new_codex32_short 0) 0).residue
      = [0, 16, 16, 16, 16, 16, 16, 16, 16, 16, 16, 16, 16]
  ∧ (input_fe_simultaneous (input_fe_simultaneous new_codex32_short 0) 0).residue
      = [0, 16, 16, 24, 27, 31, 25, 25, 25, 0, 8, 17, 27]
  ∧ (input_fe (input_fe new_codex32_short 0) 0).residue
      ≠ (input_fe_simultaneous (input_fe_simultaneous new_codex32_short 0) 0).residue := by
  decide

/-- C2: the round trip is claimed to succeed: rendering the result of
from_unchecksummed_string through from_string should succeed and return
the same string. On the empty input the rendered result is qqqqqqqqqqqqp,
and from_string rejects it with InvalidChecksum. -/
theorem roundtrip_fails_on_empty_input :
    from_unchecksummed_string [] = .ok ("qqqqqqqqqqqqp".toList)
  ∧ from_string ("qqqqqqqqqqqqp".toList)
      = .error (.InvalidChecksum ("short".toList) ("qqqqqqqqqqqqp".toList)) := by
  decide

/-- C3: digits are claimed never to set the observed case and never to
produce an InvalidCase error. The source fixes the case from
is_ascii_lowercase of ANY ASCII character: a digit on a fresh engine
sets the observed case to Upper, and a digit after a lowercase letter
is rejected with InvalidCase. -/
theorem digit_constrains_case :
    input_data_str new_codex32_short ['a', '3'] = .error (.InvalidCase Case.Lower '3')
  ∧ set_check_case new_codex32_short '3'
      = .ok { new_codex32_short with caseOpt := some Case.Upper } := by
  decide

/-- C8: the translation wheel (repeated multiplication of P by Fe(20),
and repeated division), and the recovery wheel (repeated multiplication
of P by Fe(10), rendering each value plus Fe(16)) produce exactly the
three 31-character sequences of tests::translation_wheel and
tests::recovery_wheel. -/
theorem translation_and_recovery_wheels :
    wheelMul 20 31 1 = "p529kt3uw8hlmecvxr470na6djfsgyz".toList
  ∧ wheelDiv 20 31 1 = some ("pzygsfjd6an074rxvcemlh8wu3tk925".toList)
  ∧ wheelRecovery 31 1 = "36xp78tgk9ldaecjy4mvh0funwr2zq5".toList := by
  decide

/-- C10: dividing the zero element by the zero element returns the zero
element rather than panicking (which would be `none` here), because the
zero-dividend check precedes the zero-divisor check in ops::Div. -/
theorem div_zero_by_zero_is_zero : feDiv 0 0 = some 0 := rfl

theorem except_bind_ok {ε α β : Type} (a : α) (f : α → Except ε β) :
    ((Except.ok a : Except ε α) >>= f) = f a := rfl

theorem except_bind_error {ε α β : Type} (e : ε) (f : α → Except ε β) :
    ((Except.error e : Except ε α) >>= f) = .error e := rfl

theorem length_foldl_inv {α : Type} (g : List Nat → α → List Nat)
    (hg : ∀ acc x, (g acc x).length = acc.length) :
    ∀ (l : List α) (init : List Nat), (List.foldl g init l).length = init.length
  | [], _ => rfl
  | x :: t, init => by
      rw [List.foldl_cons, length_foldl_inv g hg t (g init x), hg]

theorem shiftLoop_length (r : List Nat) : (shiftLoop r).length = r.length := by
  unfold shiftLoop
  exact length_foldl_inv _ (fun acc x => by simp) _ r

theorem reduceLoop_length (g : List Nat) (xn : Nat) (r : List Nat) :
    (reduceLoop g xn r).length = r.length := by
  unfold reduceLoop
  exact length_foldl_inv _ (fun acc x => by simp) _ r

theorem input_fe_residue_length (eng : Engine) (e : Nat) :
    (input_fe eng e).residue.length = eng.residue.length := by
  show (reduceLoop _ _ ((shiftLoop eng.residue).set 0 e)).length = _
  rw [reduceLoop_length, List.length_set, shiftLoop_length]

theorem set_check_case_ok_residue {eng eng2 : Engine} {c : Char}
    (h : set_check_case eng c = .ok eng2) : eng2.residue = eng.residue := by
  unfold set_check_case at h
  split at h
  · exact Except.noConfusion h
  · split at h <;> first
      | exact Except.noConfusion h
      | (injection h with h2; subst h2; rfl)

theorem input_char_ok_length {eng eng2 : Engine} {c : Char}
    (h : input_char eng c = .ok eng2) :
    eng2.residue.length = eng.residue.length := by
  unfold input_char at h
  cases hsc : set_check_case eng c with
  | error e => rw [hsc, except_bind_error] at h; exact Except.noConfusion h
  | ok e1 =>
    rw [hsc, except_bind_ok] at h
    cases hfc : from_char c with
    | error e => rw [hfc, except_bind_error] at h; exact Except.noConfusion h
    | ok fe =>
      rw [hfc, except_bind_ok] at h
      injection h with h2
      subst h2
      rw [input_fe_residue_length, set_check_case_ok_residue hsc]

theorem input_hrp_ok_length (hrp : List Char) : ∀ {eng eng2 : Engine},
    input_hrp eng hrp = .ok eng2 → eng2.residue.length = eng.residue.length := by
  induction hrp with
  | nil =>
    intro eng eng2 h
    unfold input_hrp at h
    injection h with h2
    subst h2
    rfl
  | cons ch rest ih =>
    intro eng eng2 h
    unfold input_hrp at h
    cases hsc : set_check_case eng ch with
    | error e => rw [hsc, except_bind_error] at h; exact Except.noConfusion h
    | ok e1 =>
      rw [hsc, except_bind_ok] at h
      cases hf1 : from_int (ch.toNat >>> 5) with
      | error e => rw [hf1, except_bind_error] at h; exact Except.noConfusion h
      | ok f1 =>
        rw [hf1, except_bind_ok] at h
        cases hf2 : from_int (ch.toNat &&& 0x1f) with
        | error e => rw [hf2, except_bind_error] at h; exact Except.noConfusion h
        | ok f2 =>
          rw [hf2, except_bind_ok] at h
          rw [ih h]
          rw [input_fe_residue_length, input_fe_residue_length, input_fe_residue_length,
            set_check_case_ok_residue hsc]

theorem input_data_str_ok_length (l : List Char) : ∀ {eng eng2 : Engine},
    input_data_str eng l = .ok eng2 → eng2.residue.length = eng.residue.length := by
  induction l with
  | nil =>
    intro eng eng2 h
    unfold input_data_str at h
    injection h with h2
    subst h2
    rfl
  | cons ch rest ih =>
    intro eng eng2 h
    unfold input_data_str at h
    cases hic : input_char eng ch with
    | error e => rw [hic, except_bind_error] at h; exact Except.noConfusion h
    | ok e1 =>
      rw [hic, except_bind_ok] at h
      rw [ih h, input_char_ok_length hic]

/-- C4: division by the zero element panics (modelled as `none`) for a
non-zero dividend; a zero dividend gives zero for any non-zero divisor;
and for non-zero dividend and divisor the result is the antilog of
(31 + log a - log b) mod 31, exactly as ops::Div computes it. -/
theorem div_semantics (a b : Nat) (ha : a < 32) (hb : b < 32) :
    (a ≠ 0 → feDiv a 0 = none)
  ∧ (a = 0 → b ≠ 0 → feDiv a b = some 0)
  ∧ (a ≠ 0 → b ≠ 0 → feDiv a b
      = some (LOG_INV.getD (((31 + (LOG.getD a 0 : Int) - (LOG.getD b 0 : Int)) % 31).toNat) 0)) := by
  refine ⟨fun h => ?_, fun h0 hb0 => ?_, fun ha0 hb0 => ?_⟩
  · simp [feDiv, h]
  · simp [feDiv, h0]
  · simp [feDiv, ha0, hb0]

/-- Witness for div_semantics at dividends 2 and 0 and divisor 3. -/
theorem div_semantics_witness :
    feDiv 2 0 = none ∧ feDiv 0 3 = some 0 ∧ feDiv 2 3 = some 25 := by
  have h := div_semantics 2 3 (by decide) (by decide)
  have h0 := div_semantics 0 3 (by decide) (by decide)
  refine ⟨h.1 (by decide), h0.2.1 rfl (by decide), ?_⟩
  rw [h.2.2 (by decide) (by decide)]
  decide

/-- C7: the GF(32) field laws as the spec quantifies them: addition is
commutative, self-inverse and associative on field elements, and every
non-zero element a satisfies a * (P / a) = P and a / a = P. -/
theorem gf32_field_laws (a b c : Nat) (ha : a < 32) (hb : b < 32) (hc : c < 32) :
    feAdd a b = feAdd b a
  ∧ feAdd a a = 0
  ∧ feAdd (feAdd a b) c = feAdd a (feAdd b c)
  ∧ (a ≠ 0 → Option.map (fun v => feMul a v) (feDiv 1 a) = some 1 ∧ feDiv a a = some 1) := by
  refine ⟨Nat.xor_comm a b, Nat.xor_self a, Nat.xor_assoc a b c, fun h0 => ?_⟩
  exact (show ∀ x : Fin 32, x.val ≠ 0 →
      Option.map (fun v => feMul x.val v) (feDiv 1 x.val) = some 1
        ∧ feDiv x.val x.val = some 1 by decide) ⟨a, ha⟩ h0

/-- Witness for gf32_field_laws at a = 3, b = 5, c = 9 and at a = 7. -/
theorem gf32_field_laws_witness :
    feAdd 3 5 = feAdd 5 3 ∧ feAdd (feAdd 3 5) 9 = feAdd 3 (feAdd 5 9) ∧ feDiv 7 7 = some 1 := by
  have h := gf32_field_laws 3 5 9 (by decide) (by decide) (by decide)
  have h7 := gf32_field_laws 7 5 9 (by decide) (by decide) (by decide)
  exact ⟨h.1, h.2.2.1, (h7.2.2.2 (by decide)).2⟩

theorem chars_inv_lt32 : ∀ k : Fin 128, (CHARS_INV.getD k.val (-1)).toNat < 32 := by decide

theorem feAdd_fin_lt32 : ∀ x y : Fin 32, feAdd x.val y.val < 32 := by decide

theorem feMul_fin_lt32 : ∀ x y : Fin 32, feMul x.val y.val < 32 := by decide

theorem feDiv_fin_lt32 : ∀ x y : Fin 32, (feDiv x.val y.val).getD 0 < 32 := by decide

theorem chars_lower_get_some : ∀ x : Fin 32, (CHARS_LOWER.get? x.val).isSome := by decide

/-- C9: every field-element value producible through the public
interface has underlying byte below 32: the integer and character
constructors only return such values, the four arithmetic operations
preserve the bound, and indexing the 32-entry lowercase alphabet
(Fe::to_char) therefore succeeds on every such element. -/
theorem fe_byte_invariant (i : Nat) (c : Char) (a b q : Nat) (ha : a < 32) (hb : b < 32) :
    (∀ x, from_int i = .ok x → x < 32)
  ∧ (∀ x, from_char c = .ok x → x < 32)
  ∧ (∀ x, fe_from_str [c] = .ok x → x < 32)
  ∧ feAdd a b < 32 ∧ feSub a b < 32 ∧ feMul a b < 32
  ∧ (feDiv a b = some q → q < 32)
  ∧ (CHARS_LOWER.get? a).isSome := by
  have hfc : ∀ x, from_char c = .ok x → x < 32 := by
    intro x hx
    unfold from_char at hx
    split_ifs at hx with h1 h2 <;>
      first
        | exact Except.noConfusion hx
        | (injection hx with h3; subst h3; exact chars_inv_lt32 ⟨c.toNat, by omega⟩)
  refine ⟨?_, hfc, fun x hx => hfc x hx, feAdd_fin_lt32 ⟨a, ha⟩ ⟨b, hb⟩,
    feAdd_fin_lt32 ⟨a, ha⟩ ⟨b, hb⟩, feMul_fin_lt32 ⟨a, ha⟩ ⟨b, hb⟩, fun hq => ?_,
    chars_lower_get_some ⟨a, ha⟩⟩
  · intro x hx
    unfold from_int at hx
    split_ifs at hx with h1 h2 <;>
      first
        | exact Except.noConfusion hx
        | (injection hx with h3; subst h3; omega)
  · have hd := feDiv_fin_lt32 ⟨a, ha⟩ ⟨b, hb⟩
    rw [hq] at hd
    simpa using hd

/-- Witness for fe_byte_invariant at i = 7, c = x, a = 3, b = 5. -/
theorem fe_byte_invariant_witness :
    feAdd 3 5 < 32 ∧ feMul 3 5 < 32 ∧ (24 : Nat) < 32 ∧ (CHARS_LOWER.get? 3).isSome := by
  have h := fe_byte_invariant 7 'x' 3 5 24 (by decide) (by decide)
  exact ⟨h.2.2.2.1, h.2.2.2.2.2.1, h.2.2.2.2.2.2.1 (by decide), h.2.2.2.2.2.2.2⟩

/-- C5: Codex32String::from_string selects the short engine exactly for
total byte length strictly between 0 and 94, the long engine exactly
for length strictly between 95 and 125, and otherwise returns
InvalidLength with the length, before any character reaches an engine
(the selection and the error depend only on the length). -/
theorem from_string_length_dispatch (s : List Char) :
    (engine_select (rustLen s) = .ok ("short".toList, new_codex32_short)
        ↔ 0 < rustLen s ∧ rustLen s < 94)
  ∧ (engine_select (rustLen s) = .ok ("long".toList, new_codex32_long)
        ↔ 95 < rustLen s ∧ rustLen s < 125)
  ∧ (¬(0 < rustLen s ∧ rustLen s < 94) → ¬(95 < rustLen s ∧ rustLen s < 125) →
        from_string s = .error (.InvalidLength (rustLen s))) := by
  by_cases h1 : 0 < rustLen s ∧ rustLen s < 94
  · have he : engine_select (rustLen s) = .ok ("short".toList, new_codex32_short) := by
      unfold engine_select
      rw [if_pos h1]
    refine ⟨⟨fun _ => h1, fun _ => he⟩, ?_, fun hc _ => absurd h1 hc⟩
    rw [he]
    constructor
    · intro hx
      injection hx with h3
      exact absurd (congrArg Prod.snd h3) (by decide)
    · intro hx
      exact absurd hx (by omega)
  · by_cases h2 : 95 < rustLen s ∧ rustLen s < 125
    · have he : engine_select (rustLen s) = .ok ("long".toList, new_codex32_long) := by
        unfold engine_select
        rw [if_neg h1, if_pos h2]
      refine ⟨?_, ⟨fun _ => h2, fun _ => he⟩, fun _ hc => absurd h2 hc⟩
      rw [he]
      constructor
      · intro hx
        injection hx with h3
        exact absurd (congrArg Prod.snd h3) (by decide)
      · intro hx
        exact absurd hx h1
    · have he : engine_select (rustLen s) = .error (.InvalidLength (rustLen s)) := by
        unfold engine_select
        rw [if_neg h1, if_neg h2]
      refine ⟨?_, ?_, fun _ _ => ?_⟩
      · rw [he]
        exact ⟨fun hx => Except.noConfusion hx, fun hx => absurd hx h1⟩
      · rw [he]
        exact ⟨fun hx => Except.noConfusion hx, fun hx => absurd hx h2⟩
      · unfold from_string
        rw [he, except_bind_error]

/-- Witness for from_string_length_dispatch at a string of 94 q
characters, one of the lengths the claim singles out as invalid. -/
theorem from_string_length_dispatch_witness :
    from_string (List.replicate 94 'q') = .error (.InvalidLength 94) := by
  have hn : rustLen (List.replicate 94 'q') = 94 := by decide
  have h := (from_string_length_dispatch (List.replicate 94 'q')).2.2
    (by rw [hn]; omega) (by rw [hn]; omega)
  rwa [hn] at h

/-- C6: Codex32String::from_unchecksummed_string uses the short
checksum engine for every input length (both branches of its length
test produce the short engine), and on success the result is the input
with exactly 13 appended checksum characters. -/
theorem unchecksummed_always_short (s r : List Char)
    (h : from_unchecksummed_string s = .ok r) :
    (∀ n, (uncheck_select n).2 = new_codex32_short) ∧ r.length = s.length + 13 := by
  have hsel : ∀ n, (uncheck_select n).2 = new_codex32_short := by
    intro n
    unfold uncheck_select
    split <;> rfl
  refine ⟨hsel, ?_⟩
  unfold from_unchecksummed_string at h
  rw [hsel (rustLen s)] at h
  cases hh : input_hrp new_codex32_short (hrpSplit s).1 with
  | error e => rw [hh, except_bind_error] at h; exact Except.noConfusion h
  | ok eng1 =>
    rw [hh, except_bind_ok] at h
    cases hd : input_data_str eng1 (hrpSplit s).2 with
    | error e => rw [hd, except_bind_error] at h; exact Except.noConfusion h
    | ok eng2 =>
      rw [hd, except_bind_ok] at h
      injection h with h2
      subst h2
      have hlen : eng2.residue.length = 13 := by
        rw [input_data_str_ok_length _ hd, input_hrp_ok_length _ hh]
        rfl
      simp [into_residue, hlen]

/-- Witness for unchecksummed_always_short at the one-character input q. -/
theorem unchecksummed_always_short_witness :
    (uncheck_select 1).2 = new_codex32_short ∧
      ("qsscmleeeqg3mq".toList : List Char).length = ("q".toList : List Char).length + 13 := by
  have h := unchecksummed_always_short ("q".toList) ("qsscmleeeqg3mq".toList) (by decide)
  exact ⟨h.1 1, h.2⟩

end Codex32
